import Mathlib

/-!
Verification of the Eddie writing-assistant repository's context-assembly and
chat-orchestration core.

The development shallowly embeds the two Python sources:
 - gtk4-ai-editor.py   (desktop variant: class Config, class AIWriter)
 - web/app.py          (Flask variant: load_config/save_config, ai_chat)

Modelling conventions:
 - Python strings are Lean String; machine floats in the config are modelled
   as Rat (they are only stored and compared, never computed with).
 - The filesystem seen by content reads is a function String -> FileStat:
   a path is absent (os.path.isfile false / FileNotFoundError), unreadable
   (isfile true but open/read raises), or readable with given content.
 - The directory tree seen by Path.rglob and by the file-tree widget is an
   FSTree value; child lists are stored in the traversal order the OS yields.
 - The model server is an oracle ServerBehavior: one HTTP exchange either
   yields a status/body, raises ConnectionError, or raises another exception.
 - re.findall with the pattern at gtk4-ai-editor.py line 715 is embedded with
   word characters read as ASCII alphanumerics plus the underscore.
-/

namespace Eddie

/-- Roles of the OpenAI-style chat messages built in send_to_llama / ai_chat. -/
inductive Role where
  | system
  | user
  | assistant
deriving DecidableEq, Repr, BEq

/-- One entry of the "messages" array of the chat-completions request body. -/
structure ChatMessage where
  role : Role
  content : String
deriving DecidableEq, Repr

/-- One entry appended to the chat history via add_chat_message(sender, message). -/
structure ChatEntry where
  sender : String
  message : String
deriving DecidableEq, Repr

/-- What the filesystem does when a path is stat'ed and opened for reading. -/
inductive FileStat where
  | absent
  | unreadable
  | readable (content : String)
deriving DecidableEq, Repr

/-- True when the path exists and open/read succeeds. -/
def FileStat.isReadable : FileStat → Bool
  | .readable _ => true
  | _ => false

/-- An EditorTab as seen by build_context: its file_path (None for an unsaved
    tab) and the live buffer text returned by source_buffer.get_text. -/
structure Tab where
  file_path : Option String
  buffer : String
deriving DecidableEq, Repr

/-- The configuration fields the orchestration core reads (Config / DEFAULT_CONFIG
    keys used by send_to_llama, ai_chat and build_context). -/
structure AppConfig where
  llama_cpp_url : String
  system_prompt : String
  temperature : Rat
  max_tokens : Nat
  context_max_tokens : Nat
deriving DecidableEq, Repr

/-- A directory subtree as enumerated by pathlib: each entry has a name and,
    for directories, an ordered list of children. -/
inductive FSTree where
  | file (name : String)
  | dir (name : String) (children : List FSTree)

/-- path.name of an entry. -/
def FSTree.nodeName : FSTree → String
  | .file n => n
  | .dir n _ => n

/-- path.is_file() of an entry. -/
def FSTree.isFile : FSTree → Bool
  | .file _ => true
  | .dir _ _ => false

/-- path.is_dir() of an entry. -/
def FSTree.isDir : FSTree → Bool
  | .file _ => false
  | .dir _ _ => true

/-- Children of an entry (empty for plain files). -/
def FSTree.children : FSTree → List FSTree
  | .file _ => []
  | .dir _ ch => ch

/-- Single left-to-right pass computing the characters after the last slash. -/
def basenameChars : List Char → List Char → List Char
  | [], acc => acc.reverse
  | '/' :: rest, _ => basenameChars rest []
  | c :: rest, acc => basenameChars rest (c :: acc)

/-- os.path.basename for the POSIX paths used throughout: the part after the
    last slash. -/
def basename (p : String) : String :=
  String.mk (basenameChars p.data [])

/-- name.startswith('.'): the name opens with a dot. -/
def nameHidden (n : String) : Bool :=
  match n.data with
  | [] => false
  | c :: _ => c = '.'

/-- Python "\n".join(parts). -/
def joinParts : List String → String
  | [] => ""
  | [p] => p
  | p :: q :: rest => p ++ "\n" ++ joinParts (q :: rest)

/-- Whether needle occurs as a contiguous run inside the character list. -/
def subOccurs (needle : List Char) : List Char → Bool
  | [] => needle.isEmpty
  | c :: rest => needle.isPrefixOf (c :: rest) || subOccurs needle rest

/-- Whether needle occurs as a substring of hay. -/
def strOccurs (hay needle : String) : Bool :=
  subOccurs needle.data hay.data

/-- The mutable window state read by the orchestration core of the desktop
    variant.  root_folder carries the chosen folder's full path together with
    the directory entry rooted there; fs is the filesystem seen by open(). -/
structure AIWriterState where
  config : AppConfig
  root_folder : Option (String × FSTree)
  file_contexts : List String
  tab : Option Tab
  fs : String → FileStat

/-- The file_path of the current tab, when a tab is open and has one. -/
def curPath (tab : Option Tab) : Option String :=
  tab.bind (fun t => t.file_path)

/-! ## Mention extraction (AIWriter.parse_mentions, regex part)

re.findall applied to the pattern at gtk4-ai-editor.py line 715 collects, left
to right and without overlap, every maximal nonempty run of word, hyphen or
dot characters that follows an at-sign. -/

/-- A character matched by the bracket class of the mention pattern. -/
def isMentionChar (c : Char) : Bool :=
  c.isAlphanum || c = '_' || c = '-' || c = '.'

/-- The findall scan as a single left-to-right pass.  The first argument is
    none outside a match and some acc inside one, acc holding the class
    characters read so far in reverse: an at-sign opens a candidate match, a
    non-class character closes the current one (emitting it only when at
    least one class character was read, since the pattern requires one or
    more) and is itself re-examined as a possible opener, and a candidate
    still open at the end of the text is emitted the same way. -/
def findMentionsAux : Option (List Char) → List Char → List String
  | none, [] => []
  | some acc, [] => if acc.isEmpty then [] else [String.mk acc.reverse]
  | none, c :: rest =>
    if c = '@' then findMentionsAux (some []) rest else findMentionsAux none rest
  | some acc, c :: rest =>
    if isMentionChar c then findMentionsAux (some (c :: acc)) rest
    else
      (if acc.isEmpty then [] else [String.mk acc.reverse])
        ++ (if c = '@' then findMentionsAux (some []) rest else findMentionsAux none rest)

/-- All mention tokens of the text, in first-occurrence order, duplicates kept,
    exactly as re.findall returns them. -/
def findMentions (l : List Char) : List String :=
  findMentionsAux none l

/-! ## Mention resolution (AIWriter.parse_mentions, rglob part)

Path(root).rglob(token) enumerates, for the root directory and then for every
subdirectory in preorder, the entries of that directory whose name equals the
token (the token's characters are all literal in glob syntax).  pathlib does
not exclude dot-prefixed entries.  Each yielded entry carries is_file() and
its full path. -/

/-- The entries of one directory matching the token, with is_file and path. -/
def rglobHere (pat : String) (dirPath : String) : List FSTree → List (Bool × String)
  | [] => []
  | c :: cs =>
    (if c.nodeName = pat then [(c.isFile, dirPath ++ "/" ++ c.nodeName)] else [])
      ++ rglobHere pat dirPath cs

mutual

/-- The matches contributed by every subdirectory of the given entries,
    recursively, in preorder. -/
def rglobRec (pat : String) (dirPath : String) : List FSTree → List (Bool × String)
  | [] => []
  | t :: cs => rglobNode pat dirPath t ++ rglobRec pat dirPath cs

/-- The matches contributed by one entry's subdirectory (none for a file):
    matches directly inside it, then those of its own subdirectories. -/
def rglobNode (pat : String) (dirPath : String) : FSTree → List (Bool × String)
  | .file _ => []
  | .dir n ch =>
    rglobHere pat (dirPath ++ "/" ++ n) ch ++ rglobRec pat (dirPath ++ "/" ++ n) ch

end

/-- Path(dirPath).rglob(pat) over a directory with the given children:
    matches in the directory itself, then in each subdirectory recursively. -/
def rglobIn (pat : String) (dirPath : String) (children : List FSTree) : List (Bool × String) :=
  rglobHere pat dirPath children ++ rglobRec pat dirPath children

/-- The loop body of parse_mentions: walk the rglob results and return the
    first one that is_file(), skipping directories (the break sits inside the
    if, so directory matches do not stop the scan). -/
def resolveLoop : List (Bool × String) → Option String
  | [] => none
  | (isf, p) :: rest => if isf then some p else resolveLoop rest

/-- The per-token resolution used by parse_mentions against an open root. -/
def resolveMention (rootPath : String) (rootChildren : List FSTree) (tok : String) :
    Option String :=
  resolveLoop (rglobIn tok rootPath rootChildren)

/-- The accumulation loop of parse_mentions over the token list. -/
def parseLoop (rootPath : String) (rootChildren : List FSTree) : List String → List String
  | [] => []
  | tok :: toks =>
    match resolveMention rootPath rootChildren tok with
    | some p => p :: parseLoop rootPath rootChildren toks
    | none => parseLoop rootPath rootChildren toks

/-- AIWriter.parse_mentions: extract the tokens, then, if a root folder is
    open, resolve each token occurrence against the subtree; with no root
    folder the result is empty. -/
def AIWriter.parse_mentions (st : AIWriterState) (text : String) : List String :=
  let mentions := findMentions text.data
  match st.root_folder with
  | none => []
  | some (rootPath, root) => parseLoop rootPath root.children mentions

/-! ## File tree (AIWriter._add_tree_node / load_file_tree)

The tree store rows hold display name, full path and the context flag.  A row
whose entry name starts with a dot is never added, and its subtree is never
visited.  Child order in our FSTree model is taken to be the order the
sorted iterdir call yields, so the recursion follows the list order. -/

/-- One row of the Gtk.TreeStore: display text, full path, in_context flag. -/
structure TreeRow where
  display : String
  path : String
  in_context : Bool
deriving DecidableEq, Repr

mutual

/-- AIWriter._add_tree_node: skip hidden entries entirely, add a row for the
    entry, and for directories recurse into every child. -/
def AIWriter.addTreeNode (contexts : List String) (selfPath : String) :
    FSTree → List TreeRow
  | .file n =>
    if nameHidden n then []
    else [{ display := "F " ++ n, path := selfPath, in_context := decide (selfPath ∈ contexts) }]
  | .dir n ch =>
    if nameHidden n then []
    else
      { display := "D " ++ n, path := selfPath, in_context := false }
        :: AIWriter.addTreeForest contexts selfPath ch

/-- The recursion of _add_tree_node over a directory's children. -/
def AIWriter.addTreeForest (contexts : List String) (dirPath : String) :
    List FSTree → List TreeRow
  | [] => []
  | c :: cs =>
    AIWriter.addTreeNode contexts (dirPath ++ "/" ++ c.nodeName) c
      ++ AIWriter.addTreeForest contexts dirPath cs

end

/-- AIWriter.load_file_tree: clear the store and, when a root folder is open,
    add its node (and recursively the whole subtree). -/
def AIWriter.load_file_tree (st : AIWriterState) : List TreeRow :=
  match st.root_folder with
  | none => []
  | some (rootPath, root) => AIWriter.addTreeNode st.file_contexts rootPath root

/-! ## Context assembly (AIWriter.build_context)

context_parts is built in three stages: the current tab's live buffer (when a
tab with a file_path is open), then every readable member of file_contexts,
then every mentioned path that is neither in file_contexts nor the current
tab's path.  Unreadable or missing files are skipped by the bare except
clauses; the final string is "\n".join(context_parts). -/

/-- The block a successful open/read of a path contributes. -/
def readBlock (fs : String → FileStat) (p : String) : Option String :=
  match fs p with
  | .readable c => some ("=== " ++ basename p ++ " ===\n" ++ c ++ "\n")
  | _ => none

/-- Stage 1: the current-file block. -/
def currentParts (tab : Option Tab) : List String :=
  match tab with
  | some t =>
    match t.file_path with
    | some fp => ["=== Current File: " ++ basename fp ++ " ===\n" ++ t.buffer ++ "\n"]
    | none => []
  | none => []

/-- Stage 2: the loop over self.file_contexts (isfile check, then guarded read). -/
def ctxParts (fs : String → FileStat) : List String → List String
  | [] => []
  | p :: ps =>
    (match fs p with
     | .readable c => ["=== " ++ basename p ++ " ===\n" ++ c ++ "\n"]
     | _ => []) ++ ctxParts fs ps

/-- The guard of stage 3: a mentioned path is read only when it is not in
    file_contexts and (no tab is open or it is not the tab's path). -/
def mentionEmit (tab : Option Tab) (contexts : List String) (p : String) : Bool :=
  decide (p ∉ contexts) &&
    (match tab with
     | none => true
     | some t => decide (t.file_path ≠ some p))

/-- Stage 3: the loop over mentioned_files (guard, then unguarded read inside
    try/except). -/
def mentionParts (tab : Option Tab) (contexts : List String) (fs : String → FileStat) :
    List String → List String
  | [] => []
  | p :: ps =>
    (if mentionEmit tab contexts p then (readBlock fs p).toList else [])
      ++ mentionParts tab contexts fs ps

/-- The context_parts list of AIWriter.build_context. -/
def buildContextParts (tab : Option Tab) (contexts : List String) (fs : String → FileStat)
    (mentioned_files : List String) : List String :=
  currentParts tab ++ ctxParts fs contexts ++ mentionParts tab contexts fs mentioned_files

/-- AIWriter.build_context: the joined context string. -/
def AIWriter.build_context (st : AIWriterState) (mentioned_files : List String) : String :=
  joinParts (buildContextParts st.tab st.file_contexts st.fs mentioned_files)

/-! ## Chat orchestration (AIWriter.send_to_llama)

The message list always starts with the persona system message; a second
system message carrying the assembled context is appended only when the
context string is truthy (non-empty); the user message is appended last.
Exactly one POST is issued; the single response (or exception) is mapped to
exactly one chat entry. -/

/-- The messages list built in send_to_llama from the persona prompt, the
    assembled context string and the user message. -/
def sendMessages (system_prompt context user_message : String) : List ChatMessage :=
  let messages := [{ role := Role.system, content := system_prompt }]
  let messages :=
    if context = "" then messages
    else messages ++ [{ role := Role.system, content := "Files in context:\n" ++ context }]
  messages ++ [{ role := Role.user, content := user_message }]

/-- The single HTTP POST issued by one send: target URL, JSON body fields. -/
structure HttpRequest where
  url : String
  messages : List ChatMessage
  temperature : Rat
  max_tokens : Nat
deriving DecidableEq, Repr

/-- One exchange with the model server: an HTTP response with a status code
    and the extracted choices[0].message.content, a refused connection, or
    any other raised exception with its string form. -/
inductive ServerBehavior where
  | respond (status : Nat) (content : String)
  | connectionRefused
  | exn (msg : String)
deriving DecidableEq, Repr

/-- The request send_to_llama posts for the given state and inputs. -/
def AIWriter.llamaRequest (st : AIWriterState) (user_message : String)
    (mentioned_files : List String) : HttpRequest :=
  { url := st.config.llama_cpp_url ++ "/v1/chat/completions"
    messages := sendMessages st.config.system_prompt
      (AIWriter.build_context st mentioned_files) user_message
    temperature := st.config.temperature
    max_tokens := st.config.max_tokens }

/-- AIWriter.send_to_llama: the chat entry marshalled back to the UI and the
    list of HTTP requests issued (always exactly the one POST, no retry). -/
def AIWriter.send_to_llama (st : AIWriterState) (behavior : ServerBehavior)
    (user_message : String) (mentioned_files : List String) :
    ChatEntry × List HttpRequest :=
  let req := AIWriter.llamaRequest st user_message mentioned_files
  match behavior with
  | .respond status content =>
    if status = 200 then ({ sender := "AI", message := content }, [req])
    else ({ sender := "Error", message := "API error: " ++ toString status }, [req])
  | .connectionRefused =>
    ({ sender := "Error"
       message := "Cannot connect to llama.cpp server. Is it running on port 8080?" }, [req])
  | .exn m => ({ sender := "Error", message := "Error: " ++ m }, [req])

/-! ## Web variant (web/app.py, ai_chat) -/

/-- The context_parts loop of ai_chat: one block per readable entry of the
    request's context_files list, in list order, with no deduplication. -/
def webContextParts (fs : String → FileStat) : List String → List String
  | [] => []
  | fp :: rest =>
    (match fs fp with
     | .readable c => ["=== " ++ basename fp ++ " ===\n" ++ c ++ "\n"]
     | _ => []) ++ webContextParts fs rest

/-- The messages list built by ai_chat; the context system message is added
    only when context_parts is non-empty. -/
def webMessages (cfg : AppConfig) (fs : String → FileStat) (context_files : List String)
    (user_message : String) : List ChatMessage :=
  let context_parts := webContextParts fs context_files
  let messages := [{ role := Role.system, content := cfg.system_prompt }]
  let messages :=
    if context_parts.isEmpty then messages
    else messages ++
      [{ role := Role.system, content := "Files in context:\n" ++ joinParts context_parts }]
  messages ++ [{ role := Role.user, content := user_message }]

/-- The JSON payload a call of ai_chat answers with. -/
inductive WebPayload where
  | ok (response : String)
  | err (msg : String)
deriving DecidableEq, Repr

/-- ai_chat: payload, HTTP status of the Flask response, and the requests
    issued to the model server (always exactly one, no retry). -/
def webAiChat (cfg : AppConfig) (fs : String → FileStat) (user_message : String)
    (context_files : List String) (behavior : ServerBehavior) :
    WebPayload × Nat × List HttpRequest :=
  let req : HttpRequest :=
    { url := cfg.llama_cpp_url ++ "/v1/chat/completions"
      messages := webMessages cfg fs context_files user_message
      temperature := cfg.temperature
      max_tokens := cfg.max_tokens }
  match behavior with
  | .respond status content =>
    if status = 200 then (WebPayload.ok content, 200, [req])
    else (WebPayload.err ("API error: " ++ toString status), 502, [req])
  | .connectionRefused =>
    (WebPayload.err "Cannot connect to llama.cpp server.", 502, [req])
  | .exn m => (WebPayload.err m, 500, [req])

/-! ## Configuration store (class Config of gtk4-ai-editor.py)

The persisted store is a JSON object or absent; we model a JSON object as an
ordered association list of key/value pairs (Python dicts preserve insertion
order and hold each key once).  Config.load returns the defaults overlaid via
the dict-merge expression at line 46; Config.save rewrites the whole object. -/

/-- The JSON scalar values occurring in the config. -/
inductive JVal where
  | str (s : String)
  | num (q : Rat)
  | bool (b : Bool)
deriving DecidableEq, Repr

/-- A JSON object, in insertion order. -/
abbrev JObj := List (String × JVal)

/-- Value of a key in a JSON object (first occurrence). -/
def JObj.get (d : JObj) (k : String) : Option JVal :=
  (d.find? (fun kv => kv.1 == k)).map (fun kv => kv.2)

/-- Python dict assignment d[k] = v: replace the value in place when the key
    is present, append otherwise. -/
def JObj.set (d : JObj) (k : String) (v : JVal) : JObj :=
  if (JObj.get d k).isSome then
    d.map (fun kv => if kv.1 == k then (kv.1, v) else kv)
  else d ++ [(k, v)]

/-- The Python merge of two dicts: a's keys in a's order with b's values
    winning, then b's new keys in b's order. -/
def JObj.merge (a b : JObj) : JObj :=
  a.map (fun kv => (kv.1, (JObj.get b kv.1).getD kv.2))
    ++ b.filter (fun kv => (JObj.get a kv.1).isNone)

/-- Config.DEFAULT_CONFIG of gtk4-ai-editor.py lines 29-39. -/
def Config.DEFAULT_CONFIG : JObj :=
  [ ("llama_cpp_url", JVal.str "http://localhost:8080"),
    ("system_prompt", JVal.str
      ("You are a helpful writing assistant. You have access to the user's files "
        ++ "and can help with writing, editing, and improving text.")),
    ("temperature", JVal.num (7 / 10)),
    ("max_tokens", JVal.num 2000),
    ("context_max_tokens", JVal.num 6000),
    ("editor_font", JVal.str "Monospace 11"),
    ("theme", JVal.str "layan-dark"),
    ("show_line_numbers", JVal.bool true),
    ("wrap_text", JVal.bool true) ]

/-- Config.load: defaults when no file is persisted, otherwise defaults
    overlaid with the persisted object's keys. -/
def Config.load (store : Option JObj) : JObj :=
  match store with
  | some j => JObj.merge Config.DEFAULT_CONFIG j
  | none => Config.DEFAULT_CONFIG

/-- Config.save: the store after json.dump of the whole config object. -/
def Config.save (config : JObj) : Option JObj :=
  some config

/-! ## Helper lemmas -/

/-- The derived Boolean equality on Role agrees with decidable equality. -/
@[simp] theorem Role.beq_eq_decide (a b : Role) : (a == b) = decide (a = b) := by
  cases a <;> cases b <;> rfl

/-- A headed block is never the empty string. -/
theorem headedBlock_ne_empty (a b c d : String) :
    a ++ b ++ c ++ d ++ "\n" ≠ "" := by
  intro hEq
  have hlen := congrArg String.length hEq
  have h1 : ("\n" : String).length = 1 := rfl
  have h0 : ("" : String).length = 0 := rfl
  simp only [String.length_append, h1, h0] at hlen
  omega

/-- Every element webContextParts emits is non-empty. -/
theorem webContextParts_mem_ne_empty (fs : String → FileStat) :
    ∀ l p, p ∈ webContextParts fs l → p ≠ "" := by
  intro l
  induction l with
  | nil => intro p hp; simp [webContextParts] at hp
  | cons q rest ih =>
    intro p hp
    simp only [webContextParts] at hp
    rcases List.mem_append.mp hp with h1 | h2
    · revert h1
      cases hfs : fs q <;> intro h1 <;> simp at h1
      subst h1
      exact headedBlock_ne_empty "=== " (basename q) " ===\n" _

    · exact ih p h2

/-- "\n".join of a list of non-empty strings is empty exactly when the list
    is empty. -/
theorem joinParts_eq_empty_iff (parts : List String) (h : ∀ p ∈ parts, p ≠ "") :
    (joinParts parts = "" ↔ parts = []) := by
  constructor
  · intro hEq
    match parts, h with
    | [], _ => rfl
    | [p], h => exact absurd hEq (h p (by simp))
    | p :: q :: rest, h =>
      exfalso
      simp only [joinParts] at hEq
      have hlen := congrArg String.length hEq
      have h1 : ("\n" : String).length = 1 := rfl
      have h0 : ("" : String).length = 0 := rfl
      simp only [String.length_append, h1, h0] at hlen
      omega
  · intro hEq; subst hEq; rfl

/-- C1: for every send, the outgoing message list has exactly one leading
    system message carrying the persona prompt; one additional system message
    carrying "Files in context:" plus the assembled context is present if and
    only if the assembled context string is non-empty; the list ends with
    exactly one user message holding the user's text, and contains no
    assistant (prior-turn) messages.  Stated for the desktop builder
    (sendMessages of send_to_llama) and the web builder (webMessages of
    ai_chat). -/
theorem c1_prompt_invariant (sp ctx um : String) (cfg : AppConfig)
    (fs : String → FileStat) (files : List String) :
    (sendMessages sp ctx um).head? = some { role := Role.system, content := sp } ∧
    (sendMessages sp ctx um).getLast? = some { role := Role.user, content := um } ∧
    ((sendMessages sp ctx um).filter (fun m => m.role == Role.user)).length = 1 ∧
    ((sendMessages sp ctx um).filter (fun m => m.role == Role.assistant)).length = 0 ∧
    ((sendMessages sp ctx um).filter (fun m => m.role == Role.system)).length
      = (if ctx = "" then 1 else 2) ∧
    (ctx = "" → sendMessages sp ctx um
      = [{ role := Role.system, content := sp }, { role := Role.user, content := um }]) ∧
    (ctx ≠ "" → sendMessages sp ctx um
      = [{ role := Role.system, content := sp },
         { role := Role.system, content := "Files in context:\n" ++ ctx },
         { role := Role.user, content := um }]) ∧
    (webMessages cfg fs files um).head?
      = some { role := Role.system, content := cfg.system_prompt } ∧
    (webMessages cfg fs files um).getLast? = some { role := Role.user, content := um } ∧
    ((webMessages cfg fs files um).filter (fun m => m.role == Role.user)).length = 1 ∧
    ((webMessages cfg fs files um).filter (fun m => m.role == Role.assistant)).length = 0 ∧
    ((webMessages cfg fs files um).filter (fun m => m.role == Role.system)).length
      = (if joinParts (webContextParts fs files) = "" then 1 else 2) := by
  have hweb := joinParts_eq_empty_iff (webContextParts fs files)
    (webContextParts_mem_ne_empty fs files)
  by_cases hctx : ctx = "" <;>
    rcases hparts : webContextParts fs files with _ | ⟨q, rest⟩ <;>
      simp_all +decide [sendMessages, webMessages, List.filter]

/-- Witness for C1 at concrete inputs, discharging both conditional branches:
    an empty context yields the two-message list, a non-empty one the
    three-message list. -/
theorem c1_prompt_invariant_witness :
    (sendMessages "persona" "" "hi"
      = [{ role := Role.system, content := "persona" },
         { role := Role.user, content := "hi" }]) ∧
    (sendMessages "persona" "CTX" "hi"
      = [{ role := Role.system, content := "persona" },
         { role := Role.system, content := "Files in context:\nCTX" },
         { role := Role.user, content := "hi" }]) :=
  ⟨(c1_prompt_invariant "persona" "" "hi"
      { llama_cpp_url := "u", system_prompt := "p", temperature := 1,
        max_tokens := 1, context_max_tokens := 1 }
      (fun _ => FileStat.absent) []).2.2.2.2.2.1 rfl,
   (c1_prompt_invariant "persona" "CTX" "hi"
      { llama_cpp_url := "u", system_prompt := "p", temperature := 1,
        max_tokens := 1, context_max_tokens := 1 }
      (fun _ => FileStat.absent) []).2.2.2.2.2.2.1 (by decide)⟩

/-- mentionParts distributes over list append. -/
theorem mentionParts_append (tab : Option Tab) (contexts : List String)
    (fs : String → FileStat) (l₁ l₂ : List String) :
    mentionParts tab contexts fs (l₁ ++ l₂)
      = mentionParts tab contexts fs l₁ ++ mentionParts tab contexts fs l₂ := by
  induction l₁ with
  | nil => rfl
  | cons p ps ih => simp [mentionParts, ih]

/-- A path that is in file_contexts or is the current tab's path fails the
    guard of the mention loop. -/
theorem mentionEmit_false (tab : Option Tab) (contexts : List String) (p : String)
    (h : p ∈ contexts ∨ curPath tab = some p) :
    mentionEmit tab contexts p = false := by
  rcases h with h | h
  · simp [mentionEmit, h]
  · rcases htab : tab with _ | t
    · subst htab; simp [curPath] at h
    · subst htab
      simp only [curPath, Option.bind] at h
      simp [mentionEmit, h]

/-- C4: a resolved mention whose path is already in the ContextSet, or is the
    current open file, changes nothing: build_context on a mention list with
    that path inserted equals build_context on the list without it. -/
theorem c4_duplicate_mention_skipped (st : AIWriterState) (ms₁ ms₂ : List String)
    (p : String) (h : p ∈ st.file_contexts ∨ curPath st.tab = some p) :
    AIWriter.build_context st (ms₁ ++ p :: ms₂)
      = AIWriter.build_context st (ms₁ ++ ms₂) := by
  have hemit := mentionEmit_false st.tab st.file_contexts p h
  have hparts : mentionParts st.tab st.file_contexts st.fs (ms₁ ++ p :: ms₂)
      = mentionParts st.tab st.file_contexts st.fs (ms₁ ++ ms₂) := by
    have h1 := mentionParts_append st.tab st.file_contexts st.fs ms₁ (p :: ms₂)
    have h2 := mentionParts_append st.tab st.file_contexts st.fs ms₁ ms₂
    simp [h1, h2, mentionParts, hemit]
  simp [AIWriter.build_context, buildContextParts, hparts]

/-- A sample state: notes.txt pinned in the ContextSet, no file open. -/
def sampleState : AIWriterState :=
  { config := { llama_cpp_url := "http://localhost:8080", system_prompt := "p",
                temperature := 7 / 10, max_tokens := 2000, context_max_tokens := 6000 }
    root_folder := none
    file_contexts := ["/root/notes.txt"]
    tab := none
    fs := fun p => if p = "/root/notes.txt" then FileStat.readable "hello" else FileStat.absent }

/-- Witness for C4: mentioning notes.txt while it is already in the
    ContextSet leaves the assembled context unchanged, and that context holds
    exactly one block for notes.txt. -/
theorem c4_duplicate_mention_skipped_witness :
    ("/root/notes.txt" ∈ sampleState.file_contexts ∨ curPath sampleState.tab = some "/root/notes.txt") ∧
    AIWriter.build_context sampleState ([] ++ "/root/notes.txt" :: [])
      = AIWriter.build_context sampleState ([] ++ []) ∧
    AIWriter.build_context sampleState ["/root/notes.txt"] = "=== notes.txt ===\nhello\n" :=
  ⟨Or.inl (by decide),
   c4_duplicate_mention_skipped sampleState [] [] "/root/notes.txt" (Or.inl (by decide)),
   by decide⟩

/-- webContextParts is the filterMap of the per-path read. -/
theorem webContextParts_eq_filterMap (fs : String → FileStat) (files : List String) :
    webContextParts fs files = files.filterMap (readBlock fs) := by
  induction files with
  | nil => rfl
  | cons p ps ih =>
    cases hfs : fs p <;> simp [webContextParts, readBlock, hfs, ih]

/-- C10: ai_chat emits one block per readable entry of context_files, in list
    order, without deduplication: the block count is the count of readable
    entries, and a path listed twice yields its block twice. -/
theorem c10_web_no_dedup (fs : String → FileStat) (files : List String) (p c : String)
    (h : fs p = FileStat.readable c) :
    (webContextParts fs files).length = files.countP (fun q => (fs q).isReadable) ∧
    webContextParts fs (p :: p :: files)
      = ("=== " ++ basename p ++ " ===\n" ++ c ++ "\n")
        :: ("=== " ++ basename p ++ " ===\n" ++ c ++ "\n")
        :: webContextParts fs files := by
  constructor
  · induction files with
    | nil => rfl
    | cons q qs ih =>
      rw [List.countP_cons]
      cases hfs : fs q <;> simp [webContextParts, FileStat.isReadable, hfs, ih]
  · simp [webContextParts, h]

/-- Witness for C10 at a concrete filesystem: one readable file listed twice
    produces its block twice. -/
theorem c10_web_no_dedup_witness :
    ((fun q => if q = "/r/a.txt" then FileStat.readable "hi" else FileStat.absent)
        "/r/a.txt" = FileStat.readable "hi") ∧
    webContextParts
        (fun q => if q = "/r/a.txt" then FileStat.readable "hi" else FileStat.absent)
        ["/r/a.txt", "/r/a.txt"]
      = ["=== a.txt ===\nhi\n", "=== a.txt ===\nhi\n"] :=
  ⟨rfl, by
    have h := (c10_web_no_dedup
      (fun q => if q = "/r/a.txt" then FileStat.readable "hi" else FileStat.absent)
      [] "/r/a.txt" "hi" rfl).2
    simpa using h⟩

/-- C7: any non-200 status yields exactly one synthesized error entry whose
    text names the status code, after exactly one request (no retry), in both
    variants; the web variant answers with HTTP 502. -/
theorem c7_non_200_error (st : AIWriterState) (cfg : AppConfig) (fs : String → FileStat)
    (um : String) (ms files : List String) (s : Nat) (body : String) (h : s ≠ 200) :
    (AIWriter.send_to_llama st (ServerBehavior.respond s body) um ms).1
      = { sender := "Error", message := "API error: " ++ toString s } ∧
    (AIWriter.send_to_llama st (ServerBehavior.respond s body) um ms).2.length = 1 ∧
    (webAiChat cfg fs um files (ServerBehavior.respond s body)).1
      = WebPayload.err ("API error: " ++ toString s) ∧
    (webAiChat cfg fs um files (ServerBehavior.respond s body)).2.1 = 502 ∧
    (webAiChat cfg fs um files (ServerBehavior.respond s body)).2.2.length = 1 := by
  simp [AIWriter.send_to_llama, webAiChat, h]

/-- Witness for C7 at status 500: the single error entry contains the literal
    "500". -/
theorem c7_non_200_error_witness :
    ((500 : Nat) ≠ 200) ∧
    (AIWriter.send_to_llama sampleState (ServerBehavior.respond 500 "oops") "q" []).1
      = { sender := "Error", message := "API error: 500" } ∧
    strOccurs "API error: 500" "500" = true :=
  ⟨by decide,
   (c7_non_200_error sampleState sampleState.config sampleState.fs "q" [] [] 500 "oops" (by decide)).1,
   by decide⟩

/-- A state whose active config points the model server at port 9999. -/
def st9999 : AIWriterState :=
  { config := { llama_cpp_url := "http://localhost:9999", system_prompt := "p",
                temperature := 7 / 10, max_tokens := 2000, context_max_tokens := 6000 }
    root_folder := none
    file_contexts := []
    tab := none
    fs := fun _ => FileStat.absent }

/-- Counterexample to C6: with llama_cpp_url configured to port 9999, a
    refused connection still produces the fixed message naming port 8080; the
    entry names neither the configured URL nor its port. -/
theorem c6_counterexample :
    (AIWriter.send_to_llama st9999 ServerBehavior.connectionRefused "hi" []).1
      = { sender := "Error",
          message := "Cannot connect to llama.cpp server. Is it running on port 8080?" } ∧
    st9999.config.llama_cpp_url = "http://localhost:9999" ∧
    strOccurs "Cannot connect to llama.cpp server. Is it running on port 8080?" "9999" = false ∧
    strOccurs "Cannot connect to llama.cpp server. Is it running on port 8080?"
      "http://localhost:9999" = false :=
  ⟨rfl, rfl, by decide, by decide⟩

/-- C6 as amended: connection refusal produces a fixed server-unreachable
    entry that mentions the default port 8080 in the desktop variant, and a
    fixed message with no URL at all (HTTP 502) in the web variant,
    independent of the configured llama_cpp_url. -/
theorem c6_connection_refused_fixed_message (st : AIWriterState) (cfg : AppConfig)
    (fs : String → FileStat) (um : String) (ms files : List String) :
    (AIWriter.send_to_llama st ServerBehavior.connectionRefused um ms).1
      = { sender := "Error",
          message := "Cannot connect to llama.cpp server. Is it running on port 8080?" } ∧
    (webAiChat cfg fs um files ServerBehavior.connectionRefused).1
      = WebPayload.err "Cannot connect to llama.cpp server." ∧
    (webAiChat cfg fs um files ServerBehavior.connectionRefused).2.1 = 502 :=
  ⟨rfl, rfl, rfl⟩

/-! ## Characterization of mention resolution (C2) -/

mutual

/-- Whether some file (not directory) named pat sits anywhere in the forest. -/
def existsFileNamed (pat : String) : List FSTree → Bool
  | [] => false
  | t :: ts => existsFileNamedNode pat t || existsFileNamed pat ts

/-- Whether some file named pat sits at or below one entry. -/
def existsFileNamedNode (pat : String) : FSTree → Bool
  | .file n => decide (n = pat)
  | .dir _ ch => existsFileNamed pat ch

end

/-- The for/break loop returns a path exactly when some match is a file. -/
theorem resolveLoop_isSome (l : List (Bool × String)) :
    (resolveLoop l).isSome = true ↔ ∃ e ∈ l, e.1 = true := by
  induction l with
  | nil => simp [resolveLoop]
  | cons e rest ih =>
    rcases e with ⟨isf, p⟩
    cases isf <;> simp [resolveLoop, ih]

/-- Membership in the rglob result of a non-empty forest splits into the
    head's direct match, the head's subtree matches, and the tail's matches. -/
theorem rglobIn_cons_mem (pat dp : String) (t : FSTree) (ts : List FSTree)
    (e : Bool × String) :
    e ∈ rglobIn pat dp (t :: ts)
      ↔ (e ∈ rglobHere pat dp [t] ∨ e ∈ rglobNode pat dp t ∨ e ∈ rglobIn pat dp ts) := by
  simp only [rglobIn, rglobHere, rglobRec, List.mem_append, List.append_nil]
  tauto

/-- rglob yields a file match exactly when a file named pat exists in the
    subtree, whatever the directory path prefix. -/
theorem rglobIn_file_match (pat : String) :
    ∀ (n : Nat) (ch : List FSTree), sizeOf ch ≤ n → ∀ dp,
      ((∃ e ∈ rglobIn pat dp ch, e.1 = true) ↔ existsFileNamed pat ch = true) := by
  intro n
  induction n with
  | zero =>
    intro ch h
    rcases ch with _ | ⟨t, ts⟩
    · intro dp; simp [rglobIn, rglobHere, rglobRec, existsFileNamed]
    · exfalso; simp only [List.cons.sizeOf_spec] at h; omega
  | succ m ih =>
    intro ch h dp
    rcases ch with _ | ⟨t, ts⟩
    · simp [rglobIn, rglobHere, rglobRec, existsFileNamed]
    · have hts : sizeOf ts ≤ m := by
        simp only [List.cons.sizeOf_spec] at h
        have h1 : 1 ≤ sizeOf t := by
          rcases t with _ | _ <;>
            simp only [FSTree.file.sizeOf_spec, FSTree.dir.sizeOf_spec] <;> omega
        omega
      have ihts := ih ts hts dp
      rcases t with nm | ⟨nm, ch'⟩
      · simp only [rglobIn_cons_mem, or_and_right, exists_or, ihts]
        by_cases hnm : nm = pat <;>
          simp [existsFileNamed, existsFileNamedNode, rglobNode, rglobHere,
            FSTree.nodeName, FSTree.isFile, hnm]
      · have hch : sizeOf ch' ≤ m := by
          simp only [List.cons.sizeOf_spec, FSTree.dir.sizeOf_spec] at h
          omega
        have ihch := ih ch' hch (dp ++ "/" ++ nm)
        have hnode : rglobNode pat dp (FSTree.dir nm ch') = rglobIn pat (dp ++ "/" ++ nm) ch' :=
          rfl
        simp only [rglobIn_cons_mem, hnode, or_and_right, exists_or, ihts, ihch]
        by_cases hnm : nm = pat <;>
          simp [existsFileNamed, existsFileNamedNode, rglobHere,
            FSTree.nodeName, FSTree.isFile, hnm]

/-- resolveMention succeeds exactly when a file named tok exists below the
    root. -/
theorem resolveMention_isSome (rootPath : String) (ch : List FSTree) (tok : String) :
    (resolveMention rootPath ch tok).isSome = existsFileNamed tok ch := by
  rcases hex : existsFileNamed tok ch with _ | _
  · rcases hres : resolveMention rootPath ch tok with _ | p
    · rfl
    · exfalso
      have h1 : (resolveLoop (rglobIn tok rootPath ch)).isSome = true := by
        simp [resolveMention] at hres; simp [hres]
      have h2 := (resolveLoop_isSome (rglobIn tok rootPath ch)).mp h1
      have h3 := (rglobIn_file_match tok (sizeOf ch) ch (Nat.le_refl _) rootPath).mp h2
      rw [hex] at h3
      exact Bool.false_ne_true h3
  · have h2 := (rglobIn_file_match tok (sizeOf ch) ch (Nat.le_refl _) rootPath).mpr hex
    exact (resolveLoop_isSome (rglobIn tok rootPath ch)).mpr h2

/-- The accumulation loop of parse_mentions is the filterMap of per-token
    resolution. -/
theorem parseLoop_eq_filterMap (rootPath : String) (ch : List FSTree) (toks : List String) :
    parseLoop rootPath ch toks = toks.filterMap (resolveMention rootPath ch) := by
  induction toks with
  | nil => rfl
  | cons tok rest ih =>
    rcases hres : resolveMention rootPath ch tok with _ | p <;>
      simp [parseLoop, hres, ih]

/-- filterMap keeps exactly the entries on which the function succeeds. -/
theorem length_filterMap_eq_length_filter {α β : Type} (f : α → Option β) (l : List α) :
    (l.filterMap f).length = (l.filter (fun a => (f a).isSome)).length := by
  induction l with
  | nil => rfl
  | cons a rest ih =>
    rcases hf : f a with _ | b <;> simp [List.filterMap_cons, hf, ih]

/-- C2 as amended: with no root folder the result is empty; with a root
    folder open the result lists, in occurrence order, one path per
    occurrence of each token (duplicate tokens give duplicate entries), and
    a token occurrence contributes an entry exactly when a file -- not
    merely a directory -- named like it exists somewhere below the root. -/
theorem c2_mention_resolution (st : AIWriterState) (text : String) (rootPath : String)
    (root : FSTree) (h : st.root_folder = some (rootPath, root)) :
    AIWriter.parse_mentions { st with root_folder := none } text = [] ∧
    AIWriter.parse_mentions st text
      = (findMentions text.data).filterMap (resolveMention rootPath root.children) ∧
    (AIWriter.parse_mentions st text).length
      = ((findMentions text.data).filter
          (fun tok => existsFileNamed tok root.children)).length := by
  refine ⟨rfl, ?_, ?_⟩
  · simp [AIWriter.parse_mentions, h, parseLoop_eq_filterMap]
  · simp only [AIWriter.parse_mentions, h]
    rw [parseLoop_eq_filterMap, length_filterMap_eq_length_filter]
    congr 1
    apply List.filter_congr
    intro tok _
    rw [resolveMention_isSome]

/-- The state of the C2 scenario: an open project with a single file a.txt. -/
def c2State : AIWriterState :=
  { config := { llama_cpp_url := "http://localhost:8080", system_prompt := "p",
                temperature := 7 / 10, max_tokens := 2000, context_max_tokens := 6000 }
    root_folder := some ("/h/proj", FSTree.dir "proj" [FSTree.file "a.txt"])
    file_contexts := []
    tab := none
    fs := fun _ => FileStat.absent }

/-- Counterexample to C2: the text mentions the single distinct token a.txt
    twice, and parse_mentions returns the resolved path twice -- not once per
    distinct token. -/
theorem c2_counterexample :
    findMentions ("summarize @a.txt and @a.txt".data) = ["a.txt", "a.txt"] ∧
    (findMentions ("summarize @a.txt and @a.txt".data)).dedup = ["a.txt"] ∧
    AIWriter.parse_mentions c2State "summarize @a.txt and @a.txt"
      = ["/h/proj/a.txt", "/h/proj/a.txt"] := by
  refine ⟨by decide, by decide, by decide⟩

/-- Witness for C2: the characterization applied to the concrete state,
    discharging the open-root hypothesis. -/
theorem c2_mention_resolution_witness :
    AIWriter.parse_mentions { c2State with root_folder := none } "summarize @a.txt" = [] ∧
    AIWriter.parse_mentions c2State "summarize @a.txt"
      = (findMentions ("summarize @a.txt".data)).filterMap
          (resolveMention "/h/proj" (FSTree.dir "proj" [FSTree.file "a.txt"]).children) ∧
    (AIWriter.parse_mentions c2State "summarize @a.txt").length
      = ((findMentions ("summarize @a.txt".data)).filter
          (fun tok => existsFileNamed tok (FSTree.dir "proj" [FSTree.file "a.txt"]).children)).length :=
  c2_mention_resolution c2State "summarize @a.txt" "/h/proj"
    (FSTree.dir "proj" [FSTree.file "a.txt"]) rfl

/-! ## Block counting and duplication in build_context (C3) -/

/-- The paths of the current-file stage (at most one). -/
def currentPaths (tab : Option Tab) : List String :=
  match curPath tab with
  | some fp => [fp]
  | none => []

/-- The path, per emitted block, of the three assembly stages in emission
    order: current file, readable ContextSet members, mentioned files that
    pass the guard and are readable. -/
def emittedPaths (tab : Option Tab) (contexts : List String) (fs : String → FileStat)
    (mentioned_files : List String) : List String :=
  currentPaths tab
    ++ contexts.filter (fun p => (fs p).isReadable)
    ++ mentioned_files.filter (fun p => mentionEmit tab contexts p && (fs p).isReadable)

/-- The ContextSet stage emits one block per readable member. -/
theorem ctxParts_length (fs : String → FileStat) (l : List String) :
    (ctxParts fs l).length = (l.filter (fun p => (fs p).isReadable)).length := by
  induction l with
  | nil => rfl
  | cons p ps ih =>
    cases hfs : fs p <;> simp [ctxParts, List.filter_cons, FileStat.isReadable, hfs, ih]

/-- The mention stage emits one block per guarded readable entry. -/
theorem mentionParts_length (tab : Option Tab) (contexts : List String)
    (fs : String → FileStat) (l : List String) :
    (mentionParts tab contexts fs l).length
      = (l.filter (fun p => mentionEmit tab contexts p && (fs p).isReadable)).length := by
  induction l with
  | nil => rfl
  | cons p ps ih =>
    cases hem : mentionEmit tab contexts p <;>
      cases hfs : fs p <;>
        simp [mentionParts, readBlock, List.filter_cons, FileStat.isReadable, hem, hfs, ih]

/-- C3 as amended: the assembled parts list holds one block per emitted path
    (current file, then readable ContextSet members, then guarded readable
    mentions); when the current file is not in the ContextSet and neither the
    ContextSet nor the mention list repeats a path, no path is emitted twice.
    (The unamended claim fails exactly when those conditions do: see the
    counterexample.) -/
theorem c3_block_structure (tab : Option Tab) (contexts : List String)
    (fs : String → FileStat) (ms : List String)
    (h1 : contexts.Nodup) (h2 : ms.Nodup)
    (h3 : ∀ fp, curPath tab = some fp → fp ∉ contexts) :
    (buildContextParts tab contexts fs ms).length
      = (emittedPaths tab contexts fs ms).length ∧
    (emittedPaths tab contexts fs ms).Nodup := by
  constructor
  · have hcur : (currentParts tab).length = (currentPaths tab).length := by
      rcases tab with _ | t
      · rfl
      · rcases t with ⟨fp, buf⟩
        rcases fp with _ | p <;> rfl
    simp [buildContextParts, emittedPaths, hcur, ctxParts_length, mentionParts_length]
  · have hmemCur : ∀ p, p ∈ currentPaths tab → curPath tab = some p := by
      intro p hp
      rcases hc : curPath tab with _ | q <;> simp [currentPaths, hc] at hp
      rw [hp]
    apply List.Nodup.append
    · apply List.Nodup.append
      · rcases hc : curPath tab with _ | q <;> simp [currentPaths, hc]
      · exact h1.filter _
      · intro p hp hq
        exact h3 p (hmemCur p hp) (List.mem_of_mem_filter hq)
    · exact h2.filter _
    · intro p hp hq
      have hq' := List.of_mem_filter hq
      simp only [Bool.and_eq_true, mentionEmit, decide_eq_true_eq] at hq'
      rcases List.mem_append.mp hp with hpA | hpB
      · have hcur := hmemCur p hpA
        rcases tab with _ | t
        · simp [curPath] at hcur
        · have hne := hq'.1.2
          simp only [decide_eq_true_eq] at hne
          simp only [curPath, Option.bind] at hcur
          exact hne hcur
      · exact hq'.1.1 (List.mem_of_mem_filter hpB)

/-- The filesystem of the C3 scenario: one readable file on disk. -/
def c3fs : String → FileStat :=
  fun p => if p = "/r/a.txt" then FileStat.readable "disk" else FileStat.absent

/-- Counterexample to C3: when the current open file is also in the
    ContextSet, its path gets two blocks (one from the live buffer, one from
    disk), so the emitted path list repeats a path and the block count
    exceeds the number of distinct readable files. -/
theorem c3_counterexample :
    buildContextParts (some { file_path := some "/r/a.txt", buffer := "live" })
        ["/r/a.txt"] c3fs []
      = ["=== Current File: a.txt ===\nlive\n", "=== a.txt ===\ndisk\n"] ∧
    emittedPaths (some { file_path := some "/r/a.txt", buffer := "live" })
        ["/r/a.txt"] c3fs []
      = ["/r/a.txt", "/r/a.txt"] ∧
    ¬ (emittedPaths (some { file_path := some "/r/a.txt", buffer := "live" })
        ["/r/a.txt"] c3fs []).Nodup := by
  refine ⟨by decide, by decide, by decide⟩

/-- Witness for C3 at concrete inputs (current file open and not in the
    ContextSet, one further readable ContextSet member, one mention). -/
theorem c3_block_structure_witness :
    ((["/r/b.txt"] : List String).Nodup ∧ (["/r/c.txt"] : List String).Nodup ∧
      (∀ fp, curPath (some { file_path := some "/r/a.txt", buffer := "live" }) = some fp →
        fp ∉ (["/r/b.txt"] : List String))) ∧
    (buildContextParts (some { file_path := some "/r/a.txt", buffer := "live" })
        ["/r/b.txt"] c3fs ["/r/c.txt"]).length
      = (emittedPaths (some { file_path := some "/r/a.txt", buffer := "live" })
        ["/r/b.txt"] c3fs ["/r/c.txt"]).length ∧
    (emittedPaths (some { file_path := some "/r/a.txt", buffer := "live" })
        ["/r/b.txt"] c3fs ["/r/c.txt"]).Nodup := by
  have h3 : ∀ fp, curPath (some { file_path := some "/r/a.txt", buffer := "live" }) = some fp →
      fp ∉ (["/r/b.txt"] : List String) := by
    intro fp hfp
    simp only [curPath, Option.bind] at hfp
    simp at hfp
    subst hfp
    decide
  have h := c3_block_structure (some { file_path := some "/r/a.txt", buffer := "live" })
    ["/r/b.txt"] c3fs ["/r/c.txt"] (by decide) (by decide) h3
  exact ⟨⟨by decide, by decide, h3⟩, h.1, h.2⟩

/-! ## Hidden entries: file tree vs mention resolution (C5) -/

/-- Every row the tree builder emits descends from the call root through
    non-hidden names only: the root entry itself is not hidden, and the
    row's path extends the root path by a chain of non-hidden components.
    Joint statement for the node and forest recursions, by strong induction
    on size. -/
theorem addTree_path_shape (n : Nat) :
    (∀ t : FSTree, sizeOf t ≤ n → ∀ (ctxs : List String) (sp : String) (row : TreeRow),
      row ∈ AIWriter.addTreeNode ctxs sp t →
      nameHidden t.nodeName = false ∧
      ∃ comps : List String, (∀ s ∈ comps, nameHidden s = false) ∧
        row.path = comps.foldl (fun a c => a ++ "/" ++ c) sp) ∧
    (∀ l : List FSTree, sizeOf l ≤ n → ∀ (ctxs : List String) (dp : String) (row : TreeRow),
      row ∈ AIWriter.addTreeForest ctxs dp l →
      ∃ comps : List String, comps ≠ [] ∧ (∀ s ∈ comps, nameHidden s = false) ∧
        row.path = comps.foldl (fun a c => a ++ "/" ++ c) dp) := by
  induction n using Nat.strong_induction_on with
  | _ n ih =>
    constructor
    · intro t hsize ctxs sp row hrow
      rcases t with nm | ⟨nm, ch⟩
      · rcases hh : nameHidden nm with _ | _
        · simp only [AIWriter.addTreeNode, hh, Bool.false_eq_true, if_false,
            List.mem_singleton] at hrow
          subst hrow
          exact ⟨hh, [], by simp, rfl⟩
        · simp [AIWriter.addTreeNode, hh] at hrow
      · rcases hh : nameHidden nm with _ | _
        · simp only [AIWriter.addTreeNode, hh, Bool.false_eq_true, if_false,
            List.mem_cons] at hrow
          rcases hrow with hrow | hrow
          · subst hrow
            exact ⟨hh, [], by simp, rfl⟩
          · have hlt : sizeOf ch < n := by
              simp only [FSTree.dir.sizeOf_spec] at hsize
              omega
            obtain ⟨comps, _, hvis, hpath⟩ :=
              (ih (sizeOf ch) hlt).2 ch (Nat.le_refl _) ctxs sp row hrow
            exact ⟨hh, comps, hvis, hpath⟩
        · simp [AIWriter.addTreeNode, hh] at hrow
    · intro l hsize ctxs dp row hrow
      rcases l with _ | ⟨c, cs⟩
      · simp [AIWriter.addTreeForest] at hrow
      · simp only [AIWriter.addTreeForest, List.mem_append] at hrow
        rcases hrow with hrow | hrow
        · have hlt : sizeOf c < n := by
            simp only [List.cons.sizeOf_spec] at hsize
            omega
          obtain ⟨hh, comps, hvis, hpath⟩ :=
            (ih (sizeOf c) hlt).1 c (Nat.le_refl _) ctxs (dp ++ "/" ++ c.nodeName) row hrow
          refine ⟨c.nodeName :: comps, by simp, ?_, ?_⟩
          · intro s hs
            rcases List.mem_cons.mp hs with hs | hs
            · subst hs; exact hh
            · exact hvis s hs
          · simpa using hpath
        · have hlt : sizeOf cs < n := by
            simp only [List.cons.sizeOf_spec] at hsize
            omega
          exact (ih (sizeOf cs) hlt).2 cs (Nat.le_refl _) ctxs dp row hrow

/-- The state of the C5 scenario: the project root holds a hidden directory
    .git that itself holds a.txt. -/
def c5State : AIWriterState :=
  { config := { llama_cpp_url := "http://localhost:8080", system_prompt := "p",
                temperature := 7 / 10, max_tokens := 2000, context_max_tokens := 6000 }
    root_folder := some ("/h/proj", FSTree.dir "proj" [FSTree.dir ".git" [FSTree.file "a.txt"]])
    file_contexts := []
    tab := none
    fs := fun _ => FileStat.absent }

/-- Counterexample to C5: the file tree for the project shows only the root
    (the hidden .git subtree is excluded), yet mentioning a.txt resolves to
    the file inside the hidden directory -- hidden entries are not invisible
    to mention resolution. -/
theorem c5_counterexample :
    AIWriter.parse_mentions c5State "@a.txt" = ["/h/proj/.git/a.txt"] ∧
    nameHidden ".git" = true ∧
    (AIWriter.load_file_tree c5State).map (fun r => r.path) = ["/h/proj"] ∧
    "/h/proj/.git/a.txt" ∉ (AIWriter.load_file_tree c5State).map (fun r => r.path) := by
  refine ⟨by decide, by decide, by decide, by decide⟩

/-- C5 as amended: entries whose name starts with a dot never appear in the
    file tree (every emitted row descends through non-hidden components
    only), but mention resolution scans the filesystem directly and can
    return a file inside a hidden directory, as in the concrete scenario. -/
theorem c5_hidden_visibility :
    (∀ (ctxs : List String) (sp : String) (t : FSTree) (row : TreeRow),
      row ∈ AIWriter.addTreeNode ctxs sp t →
      nameHidden t.nodeName = false ∧
      ∃ comps : List String, (∀ s ∈ comps, nameHidden s = false) ∧
        row.path = comps.foldl (fun a c => a ++ "/" ++ c) sp) ∧
    AIWriter.parse_mentions c5State "@a.txt" = ["/h/proj/.git/a.txt"] ∧
    AIWriter.load_file_tree c5State
      = [{ display := "D proj", path := "/h/proj", in_context := false }] := by
  refine ⟨?_, by decide, by decide⟩
  intro ctxs sp t row hrow
  exact (addTree_path_shape (sizeOf t)).1 t (Nat.le_refl _) ctxs sp row hrow

/-- Witness for C5 applied at a concrete tree and row. -/
theorem c5_hidden_visibility_witness :
    ({ display := "F x.txt", path := "/h/proj/x.txt", in_context := false }
        ∈ AIWriter.addTreeNode [] "/h/proj" (FSTree.dir "proj" [FSTree.file "x.txt"])) ∧
    (nameHidden (FSTree.dir "proj" [FSTree.file "x.txt"]).nodeName = false ∧
      ∃ comps : List String, (∀ s ∈ comps, nameHidden s = false) ∧
        ({ display := "F x.txt", path := "/h/proj/x.txt", in_context := false } : TreeRow).path
          = comps.foldl (fun a c => a ++ "/" ++ c) "/h/proj") :=
  ⟨by decide,
   c5_hidden_visibility.1 [] "/h/proj" (FSTree.dir "proj" [FSTree.file "x.txt"])
     { display := "F x.txt", path := "/h/proj/x.txt", in_context := false } (by decide)⟩

/-! ## Config load/save semantics (C8) -/

/-- Lookup at the head key of a cons. -/
theorem dictGet_cons_of_pos (k0 : String) (v0 : JVal) (d : JObj) (k : String) (h : k0 = k) :
    JObj.get ((k0, v0) :: d) k = some v0 := by
  subst h
  unfold JObj.get
  rw [List.find?_cons_of_pos]
  · rfl
  · simp

/-- Lookup past the head of a cons with a different key. -/
theorem dictGet_cons_of_neg (k0 : String) (v0 : JVal) (d : JObj) (k : String) (h : ¬ k0 = k) :
    JObj.get ((k0, v0) :: d) k = JObj.get d k := by
  unfold JObj.get
  rw [List.find?_cons_of_neg]
  simp [h]

/-- Lookup in the value-overriding map of the merge. -/
theorem dictGet_map_merge (a b : JObj) (k : String) :
    JObj.get (a.map (fun kv => (kv.1, (JObj.get b kv.1).getD kv.2))) k
      = (JObj.get a k).map (fun v => (JObj.get b k).getD v) := by
  induction a with
  | nil => rfl
  | cons kv rest ih =>
    rcases kv with ⟨k0, v0⟩
    rw [List.map_cons]
    by_cases hk : k0 = k
    · subst hk
      rw [dictGet_cons_of_pos _ _ _ _ rfl, dictGet_cons_of_pos _ _ _ _ rfl]
      rfl
    · rw [dictGet_cons_of_neg _ _ _ _ hk, dictGet_cons_of_neg _ _ _ _ hk]
      exact ih

/-- Lookup distributes over append, first list winning. -/
theorem dictGet_append (l1 l2 : JObj) (k : String) :
    JObj.get (l1 ++ l2) k = (JObj.get l1 k).or (JObj.get l2 k) := by
  simp only [JObj.get, List.find?_append]
  cases List.find? (fun kv => kv.1 == k) l1 <;> simp

/-- Filtering b down to the keys absent from a does not change lookups of
    keys absent from a. -/
theorem dictGet_filter_of_none (a b : JObj) (k : String) (h : JObj.get a k = none) :
    JObj.get (b.filter (fun kv => (JObj.get a kv.1).isNone)) k = JObj.get b k := by
  induction b with
  | nil => rfl
  | cons kv rest ih =>
    rcases kv with ⟨k1, v1⟩
    by_cases hk : k1 = k
    · subst hk
      have hkeep : ((JObj.get a k1).isNone : Bool) = true := by simp [h]
      rw [List.filter_cons_of_pos (by simpa using hkeep)]
      rw [dictGet_cons_of_pos _ _ _ _ rfl, dictGet_cons_of_pos _ _ _ _ rfl]
    · rcases hfil : ((JObj.get a k1).isNone : Bool) with _ | _
      · rw [List.filter_cons_of_neg (by simp [hfil])]
        rw [ih, dictGet_cons_of_neg _ _ _ _ hk]
      · rw [List.filter_cons_of_pos (by simpa using hfil)]
        rw [dictGet_cons_of_neg _ _ _ _ hk, dictGet_cons_of_neg _ _ _ _ hk]
        exact ih

/-- Filtering b down to the keys absent from a removes every key present in
    a. -/
theorem dictGet_filter_of_some (a b : JObj) (k : String) (v : JVal)
    (h : JObj.get a k = some v) :
    JObj.get (b.filter (fun kv => (JObj.get a kv.1).isNone)) k = none := by
  induction b with
  | nil => rfl
  | cons kv rest ih =>
    rcases kv with ⟨k1, v1⟩
    by_cases hk : k1 = k
    · subst hk
      have hdrop : ((JObj.get a k1).isNone : Bool) = false := by simp [h]
      rw [List.filter_cons_of_neg (by simp [hdrop])]
      exact ih
    · rcases hfil : ((JObj.get a k1).isNone : Bool) with _ | _
      · rw [List.filter_cons_of_neg (by simp [hfil])]
        exact ih
      · rw [List.filter_cons_of_pos (by simpa using hfil)]
        rw [dictGet_cons_of_neg _ _ _ _ hk]
        exact ih

/-- Lookup through the Python dict merge: persisted values win, absent keys
    fall back. -/
theorem dictGet_merge (a b : JObj) (k : String) :
    JObj.get (JObj.merge a b) k
      = match JObj.get b k with
        | some v => some v
        | none => JObj.get a k := by
  unfold JObj.merge
  rw [dictGet_append, dictGet_map_merge]
  rcases ha : JObj.get a k with _ | v
  · rw [dictGet_filter_of_none a b k ha]
    cases JObj.get b k <;> simp
  · rw [dictGet_filter_of_some a b k v ha]
    cases hb : JObj.get b k <;> simp [Option.getD]

/-- Lookup through the in-place replacement map of dict assignment. -/
theorem dictGet_map_set (d : JObj) (k : String) (v : JVal) (k' : String) :
    JObj.get (d.map (fun kv => if kv.1 == k then (kv.1, v) else kv)) k'
      = (JObj.get d k').map (fun v0 => if k' = k then v else v0) := by
  induction d with
  | nil => rfl
  | cons kv rest ih =>
    rcases kv with ⟨k0, v0⟩
    rw [List.map_cons]
    by_cases h0k : k0 = k
    · have hif : (if ((k0, v0) : String × JVal).1 == k
            then (((k0, v0) : String × JVal).1, v) else ((k0, v0) : String × JVal))
          = ((k0, v) : String × JVal) := by
        simp [h0k]
      rw [hif]
      by_cases h0' : k0 = k'
      · rw [dictGet_cons_of_pos _ _ _ _ h0', dictGet_cons_of_pos _ _ _ _ h0']
        subst h0k
        subst h0'
        simp
      · rw [dictGet_cons_of_neg _ _ _ _ h0', dictGet_cons_of_neg _ _ _ _ h0']
        exact ih
    · have hif : (if ((k0, v0) : String × JVal).1 == k
            then (((k0, v0) : String × JVal).1, v) else ((k0, v0) : String × JVal))
          = ((k0, v0) : String × JVal) := by
        simp [h0k]
      rw [hif]
      by_cases h0' : k0 = k'
      · rw [dictGet_cons_of_pos _ _ _ _ h0', dictGet_cons_of_pos _ _ _ _ h0']
        subst h0'
        simp [h0k]
      · rw [dictGet_cons_of_neg _ _ _ _ h0', dictGet_cons_of_neg _ _ _ _ h0']
        exact ih

/-- Lookup after Python dict assignment d[k] = v. -/
theorem dictGet_set (d : JObj) (k : String) (v : JVal) (k' : String) :
    JObj.get (JObj.set d k v) k' = if k' = k then some v else JObj.get d k' := by
  unfold JObj.set
  rcases hs : JObj.get d k with _ | w
  · simp only [hs, Option.isSome_none, Bool.false_eq_true, if_false]
    rw [dictGet_append]
    by_cases hk : k' = k
    · subst hk
      rw [hs, dictGet_cons_of_pos _ _ _ _ rfl]
      simp
    · have hone : JObj.get [(k, v)] k' = none := by
        rw [dictGet_cons_of_neg _ _ _ _ (fun he => hk he.symm)]
        rfl
      rw [hone]
      simp [hk]
  · simp only [hs, Option.isSome_some, if_true]
    rw [dictGet_map_set]
    by_cases hk : k' = k
    · subst hk
      rw [hs]
      simp
    · simp only [hk, if_false]
      cases JObj.get d k' <;> simp [hk]

/-- C8: load() of a missing store returns exactly the default key set;
    saving the defaults with temperature changed to 1.2 and loading again
    yields temperature 1.2 with every other key at its default; in general
    persisted keys win, absent keys fall back to the defaults, and keys
    unknown to the defaults survive a load/save round trip. -/
theorem c8_config_load_save :
    (Config.load none).map Prod.fst = Config.DEFAULT_CONFIG.map Prod.fst ∧
    (JObj.get (Config.load (Config.save
        (JObj.set Config.DEFAULT_CONFIG "temperature" (JVal.num (6 / 5))))) "temperature"
      = some (JVal.num (6 / 5))) ∧
    (∀ k, k ≠ "temperature" →
      JObj.get (Config.load (Config.save
          (JObj.set Config.DEFAULT_CONFIG "temperature" (JVal.num (6 / 5))))) k
        = JObj.get Config.DEFAULT_CONFIG k) ∧
    (∀ (store : JObj) (k : String) (v : JVal), JObj.get store k = some v →
      JObj.get (Config.load (some store)) k = some v) ∧
    (∀ (store : JObj) (k : String), JObj.get store k = none →
      JObj.get (Config.load (some store)) k = JObj.get Config.DEFAULT_CONFIG k) ∧
    (∀ (store : JObj) (k : String) (v : JVal), JObj.get store k = some v →
      ∃ store2, Config.save (Config.load (some store)) = some store2 ∧
        JObj.get store2 k = some v) := by
  refine ⟨rfl, ?_, ?_, ?_, ?_, ?_⟩
  · show JObj.get (JObj.merge Config.DEFAULT_CONFIG _) "temperature" = _
    rw [dictGet_merge, dictGet_set]
    simp
  · intro k hk
    show JObj.get (JObj.merge Config.DEFAULT_CONFIG _) k = _
    rw [dictGet_merge, dictGet_set]
    simp only [hk, if_false]
    cases JObj.get Config.DEFAULT_CONFIG k <;> simp
  · intro store k v h
    show JObj.get (JObj.merge Config.DEFAULT_CONFIG store) k = some v
    rw [dictGet_merge, h]
  · intro store k h
    show JObj.get (JObj.merge Config.DEFAULT_CONFIG store) k = _
    rw [dictGet_merge, h]
  · intro store k v h
    refine ⟨JObj.merge Config.DEFAULT_CONFIG store, rfl, ?_⟩
    rw [dictGet_merge, h]

/-- Witness for C8 at a concrete persisted store holding an overriding
    temperature and an unrecognized key. -/
theorem c8_config_load_save_witness :
    (JObj.get [("temperature", JVal.num 1), ("custom_key", JVal.str "x")] "custom_key"
        = some (JVal.str "x")) ∧
    (JObj.get (Config.load (some [("temperature", JVal.num 1), ("custom_key", JVal.str "x")]))
        "custom_key" = some (JVal.str "x")) ∧
    (JObj.get [("temperature", JVal.num 1), ("custom_key", JVal.str "x")] "theme" = none) ∧
    (JObj.get (Config.load (some [("temperature", JVal.num 1), ("custom_key", JVal.str "x")]))
        "theme" = JObj.get Config.DEFAULT_CONFIG "theme") ∧
    (("theme" : String) ≠ "temperature") ∧
    (JObj.get (Config.load (Config.save
        (JObj.set Config.DEFAULT_CONFIG "temperature" (JVal.num (6 / 5))))) "theme"
      = JObj.get Config.DEFAULT_CONFIG "theme") ∧
    (∃ store2, Config.save (Config.load
        (some [("temperature", JVal.num 1), ("custom_key", JVal.str "x")])) = some store2 ∧
      JObj.get store2 "custom_key" = some (JVal.str "x")) :=
  ⟨by decide,
   c8_config_load_save.2.2.2.1 [("temperature", JVal.num 1), ("custom_key", JVal.str "x")]
     "custom_key" (JVal.str "x") (by decide),
   by decide,
   c8_config_load_save.2.2.2.2.1 [("temperature", JVal.num 1), ("custom_key", JVal.str "x")]
     "theme" (by decide),
   by decide,
   c8_config_load_save.2.2.1 "theme" (by decide),
   c8_config_load_save.2.2.2.2.2 [("temperature", JVal.num 1), ("custom_key", JVal.str "x")]
     "custom_key" (JVal.str "x") (by decide)⟩

/-! ## No truncation against context_max_tokens (C9) -/

/-- Every part of the joined context occurs contiguously in the result. -/
theorem joinParts_infix (parts : List String) (p : String) (hp : p ∈ parts) :
    ∃ l r, joinParts parts = l ++ p ++ r := by
  induction parts with
  | nil => cases hp
  | cons q rest ih =>
    rcases rest with _ | ⟨q2, rest2⟩
    · rcases List.mem_singleton.mp hp with h
      subst h
      exact ⟨"", "", by simp [joinParts]⟩
    · rcases List.mem_cons.mp hp with h | h
      · subst h
        refine ⟨"", "\n" ++ joinParts (q2 :: rest2), ?_⟩
        simp [joinParts, String.append_assoc]
      · obtain ⟨l, r, heq⟩ := ih h
        refine ⟨q ++ "\n" ++ l, r, ?_⟩
        simp only [joinParts, heq, String.append_assoc]

/-- The block of a readable ContextSet member occurs in the ContextSet
    stage. -/
theorem ctxParts_mem (fs : String → FileStat) (l : List String) (p c : String)
    (hp : p ∈ l) (hc : fs p = FileStat.readable c) :
    ("=== " ++ basename p ++ " ===\n" ++ c ++ "\n") ∈ ctxParts fs l := by
  induction l with
  | nil => cases hp
  | cons q rest ih =>
    rcases List.mem_cons.mp hp with h | h
    · subst h
      simp [ctxParts, hc]
    · rcases hq : fs q with _ | _ | c2
      · simpa [ctxParts, hq] using ih h
      · simpa [ctxParts, hq] using ih h
      · simp [ctxParts, hq]
        exact Or.inr (ih h)

/-- C9: build_context and the web context never measure anything against
    context_max_tokens -- changing that config value leaves the assembled
    output identical -- and the full content of every readable ContextSet
    member occurs unabridged in the assembled context. -/
theorem c9_no_truncation (st : AIWriterState) (ms : List String) (n₁ n₂ : Nat)
    (cfg : AppConfig) (fs : String → FileStat) (files : List String) (um : String) :
    AIWriter.build_context { st with config := { st.config with context_max_tokens := n₁ } } ms
      = AIWriter.build_context { st with config := { st.config with context_max_tokens := n₂ } } ms ∧
    webMessages { cfg with context_max_tokens := n₁ } fs files um
      = webMessages { cfg with context_max_tokens := n₂ } fs files um ∧
    (∀ p c, p ∈ st.file_contexts → st.fs p = FileStat.readable c →
      ∃ l r, AIWriter.build_context st ms = l ++ c ++ r) := by
  refine ⟨rfl, rfl, ?_⟩
  intro p c hp hc
  have hblock : ("=== " ++ basename p ++ " ===\n" ++ c ++ "\n")
      ∈ buildContextParts st.tab st.file_contexts st.fs ms := by
    have h1 := ctxParts_mem st.fs st.file_contexts p c hp hc
    simp only [buildContextParts, List.mem_append]
    tauto
  obtain ⟨l, r, heq⟩ := joinParts_infix _ _ hblock
  refine ⟨l ++ ("=== " ++ basename p ++ " ===\n"), "\n" ++ r, ?_⟩
  show joinParts (buildContextParts st.tab st.file_contexts st.fs ms) = _
  rw [heq]
  simp [String.append_assoc]

/-- Witness for C9: the full content of the pinned notes file occurs in the
    assembled context of the concrete state. -/
theorem c9_no_truncation_witness :
    ("/root/notes.txt" ∈ sampleState.file_contexts) ∧
    (sampleState.fs "/root/notes.txt" = FileStat.readable "hello") ∧
    (∃ l r, AIWriter.build_context sampleState [] = l ++ "hello" ++ r) :=
  ⟨by decide, rfl,
   (c9_no_truncation sampleState [] 0 0 sampleState.config sampleState.fs [] "u").2.2
     "/root/notes.txt" "hello" (by decide) rfl⟩

end Eddie
